import Mathlib

/-!
Verification of the vector-index / similarity-search engine and the text
chunker of the Vietnamese traffic-law RAG chatbot.

The Python sources embedded here are:
  shared/utils/vector_operations.py  (VectorStoreManager)
  shared/utils/text_processing.py    (VietnameseTextProcessor.chunk_text)
  shared/utils/error_handling.py     (error classes)
  shared/models/data_models.py       (VectorSearchResult, IndexManifest)
  shared/config/settings.py          (config objects)

Modelling conventions:
  - Python floats become exact rationals; machine strings of text become
    lists of characters where character-level reasoning is needed.
  - A FAISS flat L2 index is modelled by the list of its stored vectors;
    faiss.write_index / read_index round-trip the index, so the index file
    is modelled by that same list.
  - A Python dict is an insertion-ordered association list; dict assignment
    replaces in place when the key is present and appends otherwise.
  - JSON stringified integer keys are modelled as their little-endian
    decimal digit lists (str(k) and int(s) become Nat.digits / Nat.ofDigits).
  - Raising an exception becomes returning an error value; methods that
    mutate the manager return the (unchanged, on error) manager paired with
    an optional error.
-/

set_option maxHeartbeats 1000000

/-- Free-form metadata record attached to a vector id: a Python dict with
string keys, values modelled as strings. -/
abbrev Meta := List (String × String)

/-- Python dict assignment d[k] = v on an insertion-ordered association
list: replaces the value in place when the key exists, appends otherwise. -/
def dictInsert {β : Type} (d : List (ℕ × β)) (k : ℕ) (v : β) : List (ℕ × β) :=
  match d with
  | [] => [(k, v)]
  | (k', v') :: rest => if k' = k then (k, v) :: rest else (k', v') :: dictInsert rest k v

/-- Python d.get(k, dflt). -/
def dictGet {β : Type} (d : List (ℕ × β)) (k : ℕ) (dflt : β) : β :=
  match d with
  | [] => dflt
  | (k', v') :: rest => if k' = k then v' else dictGet rest k dflt

/-- meta.get(key, dflt) on a string-keyed metadata record. -/
def metaGet (m : Meta) (key dflt : String) : String :=
  match m with
  | [] => dflt
  | (k, v) :: rest => if k = key then v else metaGet rest key dflt

/-- meta.get(key) returning None when absent. -/
def metaGetOpt (m : Meta) (key : String) : Option String :=
  match m with
  | [] => none
  | (k, v) :: rest => if k = key then some v else metaGetOpt rest key

/-- Error taxonomy. The source (error_handling.py) defines RAGChatbotError
with subclasses BedrockError, VectorSearchError, DocumentProcessingError and
ValidationError. The spec additionally names NotReadyError and
CorruptionError, which have no counterpart anywhere in the source;
constructors for them are included only so that spec-level statements
mentioning them can be expressed — the embedded code never produces them. -/
inductive RAGError where
  | vectorSearchError (message : String)
  | validationError (message : String) (field : Option String)
  | bedrockError (message : String) (model_id : Option String)
  | documentProcessingError (message : String) (filename : Option String)
  | notReadyError (message : String)
  | corruptionError (message : String)
  deriving DecidableEq

/-- True exactly for the source's ValidationError class. -/
def RAGError.isValidationError : RAGError → Prop
  | .validationError _ _ => True
  | _ => False

/-- True exactly for the source's VectorSearchError class. -/
def RAGError.isVectorSearchError : RAGError → Prop
  | .vectorSearchError _ => True
  | _ => False

/-- True for the spec-level NotReadyError (no source counterpart). -/
def RAGError.isNotReadyError : RAGError → Prop
  | .notReadyError _ => True
  | _ => False

/-- True for the spec-level CorruptionError (no source counterpart). -/
def RAGError.isCorruptionError : RAGError → Prop
  | .corruptionError _ => True
  | _ => False

instance : DecidablePred RAGError.isValidationError := by
  intro e; cases e <;> simp [RAGError.isValidationError] <;> infer_instance

instance : DecidablePred RAGError.isVectorSearchError := by
  intro e; cases e <;> simp [RAGError.isVectorSearchError] <;> infer_instance

instance : DecidablePred RAGError.isNotReadyError := by
  intro e; cases e <;> simp [RAGError.isNotReadyError] <;> infer_instance

instance : DecidablePred RAGError.isCorruptionError := by
  intro e; cases e <;> simp [RAGError.isCorruptionError] <;> infer_instance

/-- VectorConfig (shared/config/settings.py). -/
structure VectorConfig where
  faiss_index_type : String
  embedding_dimension : ℕ
  nlist : ℕ
  top_k_results : ℕ
  confidence_threshold : ℚ
  deriving DecidableEq

/-- TextConfig (shared/config/settings.py). -/
structure TextConfig where
  chunk_size : ℕ
  chunk_overlap : ℕ
  max_tokens : ℕ
  max_query_length : ℕ
  deriving DecidableEq

/-- The part of BedrockConfig used by the vector store. -/
structure BedrockConfig where
  embedding_model_id : String
  deriving DecidableEq

/-- The slice of AppConfig consumed by VectorStoreManager and the chunker. -/
structure AppConfig where
  vector : VectorConfig
  text : TextConfig
  bedrock : BedrockConfig
  deriving DecidableEq

/-- Baseline configuration from shared/config/constants.py
(VECTOR_CONFIG and TEXT_CONFIG defaults, titan-v2 dimension). -/
def defaultAppConfig : AppConfig :=
  { vector := { faiss_index_type := "Flat", embedding_dimension := 1024,
                nlist := 1024, top_k_results := 5, confidence_threshold := 7/10 }
    text := { chunk_size := 512, chunk_overlap := 50,
              max_tokens := 8000, max_query_length := 1000 }
    bedrock := { embedding_model_id := "amazon.titan-embed-text-v2:0" } }

/-- Python `x or default` for an optional integer argument:
None and 0 are both falsy and fall back to the default. -/
def orDefaultNat (x : Option ℕ) (dflt : ℕ) : ℕ :=
  match x with
  | none => dflt
  | some n => if n = 0 then dflt else n

/-- Python `x or default` for an optional rational argument:
None and 0.0 are both falsy and fall back to the default. -/
def orDefaultRat (x : Option ℚ) (dflt : ℚ) : ℚ :=
  match x with
  | none => dflt
  | some q => if q = 0 then dflt else q

/-- VectorSearchResult (shared/models/data_models.py). -/
structure VectorSearchResult where
  chunk_id : String
  content : String
  similarity_score : ℚ
  metadata : Meta
  document_id : Option String
  source_file : Option String
  page_number : Option String
  article_number : Option String
  deriving DecidableEq

/-- One entry of IndexManifest.documents, as built by _get_document_summary. -/
structure DocSummary where
  id : String
  filename : String
  chunks : ℕ
  processed_at : String
  deriving DecidableEq

/-- IndexManifest (shared/models/data_models.py); created_at is the ISO
timestamp string supplied by the clock collaborator. -/
structure IndexManifest where
  version : String
  created_at : String
  total_chunks : ℕ
  embedding_model : String
  chunk_size : ℕ
  chunk_overlap : ℕ
  documents : List DocSummary
  deriving DecidableEq

/-- VectorStoreManager state: config, the FAISS index modelled by the list
of its stored vectors (none before create_index/load_index), the
insertion-ordered id → metadata dict, and the manifest. -/
structure VectorStoreManager where
  config : AppConfig
  index : Option (List (List ℚ))
  metadata : List (ℕ × Meta)
  manifest : Option IndexManifest
  deriving DecidableEq

/-- Squared L2 distance between two vectors, the metric computed by a flat
FAISS index (IndexFlatL2). -/
def l2sq (u v : List ℚ) : ℚ :=
  (List.zipWith (fun a b => (a - b)^2) u v).sum

/-- The largest finite float32 value, (2 - 2^-23)·2^127. FAISS fills the
distance slots of missing neighbours with it when the index holds fewer
than k vectors. -/
def fltMax : ℚ := 2^128 - 2^104

/-- The 1e-8 constant in the similarity normalisation (line 148). -/
def simEps : ℚ := 1 / 100000000

/-- np.max over a nonempty list (the caller guards emptiness exactly as the
source does on line 147). -/
def npMax : List ℚ → ℚ
  | [] => 0
  | d :: ds => ds.foldl max d

/-- Comparison of (distance, label) pairs by distance. -/
def distPairLe (a b : ℚ × ℤ) : Prop := a.1 ≤ b.1

instance : DecidableRel distPairLe :=
  fun a b => inferInstanceAs (Decidable (a.1 ≤ b.1))

instance : IsTotal (ℚ × ℤ) distPairLe := ⟨fun a b => le_total a.1 b.1⟩

instance : IsTrans (ℚ × ℤ) distPairLe := ⟨fun _ _ _ h h' => le_trans h h'⟩

/-- index.search(query, k) on a flat L2 index: the squared distances to all
stored vectors, the k nearest in ascending order of distance, padded with
(fltMax, -1) slots when the index holds fewer than k vectors. -/
def faissFlatSearch (vecs : List (List ℚ)) (q : List ℚ) (k : ℕ) : List (ℚ × ℤ) :=
  let pairs := vecs.enum.map (fun p => (l2sq q p.2, (p.1 : ℤ)))
  let top := (List.insertionSort distPairLe pairs).take k
  top ++ List.replicate (k - top.length) (fltMax, -1)

/-- Hydration of one surviving (label, similarity) pair into a
VectorSearchResult (lines 158-169). -/
def hydrateResult (md : List (ℕ × Meta)) (p : ℤ × ℚ) : VectorSearchResult :=
  let meta : Meta := if p.1 < 0 then [] else dictGet md p.1.toNat []
  { chunk_id := metaGet meta "chunk_id" ("chunk_" ++ toString p.1)
    content := metaGet meta "content" ""
    similarity_score := p.2
    metadata := meta
    document_id := metaGetOpt meta "document_id"
    source_file := metaGetOpt meta "source_file"
    page_number := metaGetOpt meta "page_number"
    article_number := metaGetOpt meta "article_number" }

/-- The body of the search loop (vector_operations.py lines 142-171), after
k and the threshold have been resolved: run the index search, normalise the
distances of the returned batch into similarities via
1 - d / (max_distance + 1e-8) with the source's emptiness guard on np.max,
skip the -1 slots and the similarities below the threshold, and hydrate the
survivors from the metadata store. -/
def searchHits (vecs : List (List ℚ)) (q : List ℚ) (kk : ℕ) (thr : ℚ)
    (md : List (ℕ × Meta)) : List VectorSearchResult :=
  let row := faissFlatSearch vecs q kk
  let max_distance := if 0 < row.length then npMax (row.map Prod.fst) else 1
  let pairs := row.map (fun p => (p.2, 1 - p.1 / (max_distance + simEps)))
  let kept := pairs.filter (fun p =>
    if p.1 = -1 then false else if p.2 < thr then false else true)
  kept.map (hydrateResult md)

/-- VectorStoreManager.search (vector_operations.py lines 117-173).
Falsy k / confidence_threshold arguments fall back to the configured
defaults; an empty or absent index raises VectorSearchError; the rest is
searchHits. -/
def VectorStoreManager.search (m : VectorStoreManager) (query : List ℚ)
    (k : Option ℕ := none) (confidence_threshold : Option ℚ := none) :
    Except RAGError (List VectorSearchResult) :=
  match m.index with
  | none => .error (.vectorSearchError "Index is empty or not loaded")
  | some vecs =>
    if vecs.length = 0 then .error (.vectorSearchError "Index is empty or not loaded")
    else
      .ok (searchHits vecs query (orDefaultNat k m.config.vector.top_k_results)
        (orDefaultRat confidence_threshold m.config.vector.confidence_threshold) m.metadata)

/-- VectorStoreManager.add_vectors (lines 86-115). Returns the updated
manager (unchanged when an error is raised, since the source raises before
any mutation) and an optional error. -/
def VectorStoreManager.add_vectors (m : VectorStoreManager)
    (embeddings : List (List ℚ)) (metadata : List Meta) :
    VectorStoreManager × Option RAGError :=
  match m.index with
  | none => (m, some (.vectorSearchError "Index not created. Call create_index() first."))
  | some vecs =>
    if embeddings.length ≠ metadata.length then
      (m, some (.vectorSearchError "Number of embeddings must match number of metadata entries"))
    else
      let start_id := vecs.length
      let newMeta := metadata.enum.foldl
        (fun d p => dictInsert d (start_id + p.1) p.2) m.metadata
      ({ m with index := some (vecs ++ embeddings), metadata := newMeta }, none)

/-- str(k): the decimal rendering of an integer key, modelled as its
little-endian base-10 digit list. -/
def encodeKey (k : ℕ) : List ℕ := Nat.digits 10 k

/-- int(s): parsing a decimal key string back to an integer. -/
def decodeKey (s : List ℕ) : ℕ := Nat.ofDigits 10 s

/-- The three files written by save_index: the index binary (modelled by the
stored vectors it serialises), the metadata JSON object with stringified
integer keys, and the manifest JSON object. -/
structure SavedFiles where
  indexFile : List (List ℚ)
  metadataFile : List (List ℕ × Meta)
  manifestFile : IndexManifest
  deriving DecidableEq

/-- One step of _get_document_summary's dict build: ensure an entry for the
document id exists (creating it with the first-seen source_file), then
increment its chunk count. -/
def bumpDoc : List DocSummary → String → String → String → List DocSummary
  | [], docId, fname, now => [⟨docId, fname, 1, now⟩]
  | d :: rest, docId, fname, now =>
    if d.id = docId then { d with chunks := d.chunks + 1 } :: rest
    else d :: bumpDoc rest docId fname now

/-- VectorStoreManager._get_document_summary (lines 259-274). -/
def getDocumentSummary (md : List (ℕ × Meta)) (now : String) : List DocSummary :=
  md.foldl (fun acc kv =>
    bumpDoc acc (metaGet kv.2 "document_id" "unknown")
      (metaGet kv.2 "source_file" "unknown") now) []

/-- VectorStoreManager.save_index (lines 175-217); now is the timestamp
string produced by datetime.utcnow(). Returns the written files and the
manager with its manifest field updated. -/
def VectorStoreManager.save_index (m : VectorStoreManager) (now : String) :
    Except RAGError (SavedFiles × VectorStoreManager) :=
  match m.index with
  | none => .error (.vectorSearchError "No index to save")
  | some vecs =>
    let manifest : IndexManifest :=
      { version := "1.0.0"
        created_at := now
        total_chunks := vecs.length
        embedding_model := m.config.bedrock.embedding_model_id
        chunk_size := m.config.text.chunk_size
        chunk_overlap := m.config.text.chunk_overlap
        documents := getDocumentSummary m.metadata now }
    .ok ({ indexFile := vecs
           metadataFile := m.metadata.map (fun kv => (encodeKey kv.1, kv.2))
           manifestFile := manifest },
         { m with manifest := some manifest })

/-- VectorStoreManager.load_index (lines 219-257). Files are optional
contents (none = missing on disk). A missing index file raises
VectorSearchError (wrapped by the catch-all on line 257); a missing
metadata file degrades to an empty mapping with a logged warning; the
metadata JSON keys are coerced back to integers through a dict
comprehension, modelled by folding dict insertion over the parsed pairs. -/
def VectorStoreManager.load_index (m : VectorStoreManager)
    (indexFile : Option (List (List ℚ)))
    (metadataFile : Option (List (List ℕ × Meta)))
    (manifestFile : Option IndexManifest := none) :
    VectorStoreManager × Option RAGError :=
  match indexFile with
  | none => (m, some (.vectorSearchError "Failed to load index: Index file not found"))
  | some vecs =>
    let md : List (ℕ × Meta) :=
      match metadataFile with
      | some entries => entries.foldl (fun d kv => dictInsert d (decodeKey kv.1) kv.2) []
      | none => []
    let mf : Option IndexManifest :=
      match manifestFile with
      | some f => some f
      | none => m.manifest
    ({ m with index := some vecs, metadata := md, manifest := mf }, none)

/-- Python str.strip(): whitespace dropped from both ends. -/
def pyStrip (s : List Char) : List Char :=
  ((s.dropWhile Char.isWhitespace).reverse.dropWhile Char.isWhitespace).reverse

/-- The sentence-ending characters of the regex [.!?]. -/
def isSentenceEnder (c : Char) : Bool := c == '.' || c == '!' || c == '?'

/-- The raw pieces of re.split(r'[.!?]+(?:\s|$)', text): scan left to
right; run carries the pending maximal run of sentence enders (reversed),
acc the current piece (reversed). A run followed by a whitespace character
or the end of the string is a separator (the whitespace is consumed with
it); a run followed by anything else is literal text of the piece. -/
def rawSentenceSplit : List Char → List Char → List Char → List (List Char)
  | [], run, acc => if run.isEmpty then [acc.reverse] else [acc.reverse, []]
  | c :: rest, run, acc =>
    if isSentenceEnder c then rawSentenceSplit rest (c :: run) acc
    else if run.isEmpty then rawSentenceSplit rest [] (c :: acc)
    else if c.isWhitespace then acc.reverse :: rawSentenceSplit rest [] []
    else rawSentenceSplit rest [] (c :: (run ++ acc))

/-- VietnameseTextProcessor._split_sentences (text_processing.py lines
238-255): regex split, then strip each piece and drop the empty ones. -/
def split_sentences (text : List Char) : List (List Char) :=
  ((rawSentenceSplit text [] []).map pyStrip).filter (fun s => !s.isEmpty)

/-- One chunk produced by chunk_text (the dict literal of lines 199-205). -/
structure TextChunk where
  chunk_index : ℕ
  content : List Char
  size : ℕ
  start_pos : ℕ
  end_pos : ℕ
  deriving DecidableEq

/-- The loop state of chunk_text: chunks built so far, the running buffer,
its tracked size, and the next chunk index. -/
structure ChunkState where
  chunks : List TextChunk
  current_chunk : List Char
  current_size : ℕ
  chunk_index : ℕ
  deriving DecidableEq

/-- The chunk sealed on overflow (lines 199-205): content is the stripped
buffer, size the tracked size, start_pos the joined length of the chunks
list sliced to chunk_index. -/
def sealChunk (st : ChunkState) : TextChunk :=
  let joined := (((st.chunks.take st.chunk_index).map (fun c => c.content)).flatten).length
  { chunk_index := st.chunk_index
    content := pyStrip st.current_chunk
    size := st.current_size
    start_pos := joined
    end_pos := joined + st.current_size }

/-- The trailing chunk flushed after the loop (lines 227-233); identical to
sealChunk except that start_pos joins over the whole chunks list. -/
def finalChunk (st : ChunkState) : TextChunk :=
  let joined := ((st.chunks.map (fun c => c.content)).flatten).length
  { chunk_index := st.chunk_index
    content := pyStrip st.current_chunk
    size := st.current_size
    start_pos := joined
    end_pos := joined + st.current_size }

/-- One iteration of the sentence loop of chunk_text (lines 194-223). -/
def chunkStep (chunk_size overlap : ℕ) (st : ChunkState) (sentence : List Char) :
    ChunkState :=
  if st.current_size + sentence.length > chunk_size ∧ st.current_chunk ≠ [] then
    let chunks' := st.chunks ++ [sealChunk st]
    if 0 < overlap then
      let overlap_text :=
        if overlap < st.current_chunk.length
        then st.current_chunk.drop (st.current_chunk.length - overlap)
        else st.current_chunk
      let buf := overlap_text ++ [' '] ++ sentence
      { chunks := chunks'
        current_chunk := buf
        current_size := buf.length
        chunk_index := st.chunk_index + 1 }
    else
      { chunks := chunks'
        current_chunk := sentence
        current_size := sentence.length
        chunk_index := st.chunk_index + 1 }
  else
    let buf := if st.current_chunk ≠ [] then st.current_chunk ++ [' '] ++ sentence
               else sentence
    { st with
      current_chunk := buf
      current_size := st.current_size + sentence.length +
        (if buf ≠ sentence then 1 else 0) }

/-- The state after folding the sentence loop over all sentences. -/
def chunkLoop (chunk_size overlap : ℕ) (sentences : List (List Char)) : ChunkState :=
  sentences.foldl (chunkStep chunk_size overlap) ⟨[], [], 0, 0⟩

/-- The flush after the loop (lines 225-233): a trailing buffer whose
strip is nonempty becomes the final chunk. -/
def chunkFinish (st : ChunkState) : List TextChunk :=
  if pyStrip st.current_chunk ≠ [] then st.chunks ++ [finalChunk st] else st.chunks

/-- chunk_text with resolved chunk_size and overlap, parametrised by the
clean_text collaborator (Unicode normalisation and noise removal, an
external text-normalisation concern per the spec). Empty input returns []
before cleaning; afterwards the cleaned text is split into sentences, the
loop is folded, and the trailing buffer is flushed. -/
def chunkWith (clean : List Char → List Char) (text : List Char)
    (chunk_size overlap : ℕ) : List TextChunk :=
  if text = [] then []
  else chunkFinish (chunkLoop chunk_size overlap (split_sentences (clean text)))

/-- VietnameseTextProcessor.chunk_text (lines 165-236): falsy chunk_size /
overlap arguments fall back to the configured text defaults. -/
def chunk_text (cfg : TextConfig) (clean : List Char → List Char)
    (text : List Char) (chunk_size : Option ℕ := none) (overlap : Option ℕ := none) :
    List TextChunk :=
  chunkWith clean text (orDefaultNat chunk_size cfg.chunk_size)
    (orDefaultNat overlap cfg.chunk_overlap)

/-- Length of the longest sentence in a list (0 for no sentences); used to
bound the chunk sizes chunk_text can actually produce. -/
def maxLen (l : List (List Char)) : ℕ := (l.map List.length).foldr max 0

/-- A small concrete manager used to witness the search theorems. -/
def wMgr : VectorStoreManager :=
  { config := defaultAppConfig
    index := some [[0, 0], [1, 0], [3, 4]]
    metadata := [(0, [("chunk_id", "c0"), ("content", "zero")]),
                 (1, [("chunk_id", "c1")]),
                 (2, [("chunk_id", "c2")])]
    manifest := none }

/-- A manager with a created but empty index (create_index was called,
nothing added). -/
def emptyMgr : VectorStoreManager :=
  { config := defaultAppConfig
    index := some []
    metadata := []
    manifest := none }

/-- The max_distance of line 147: np.max over the returned distance row,
with the source's guard returning 1.0 on an empty row. -/
def maxDist (vecs : List (List ℚ)) (q : List ℚ) (kk : ℕ) : ℚ :=
  let row := faissFlatSearch vecs q kk
  if 0 < row.length then npMax (row.map Prod.fst) else 1

/-! ### Helper lemmas -/

theorem dictInsert_fresh {β : Type} (d : List (ℕ × β)) (k : ℕ) (v : β)
    (h : ∀ kv ∈ d, kv.1 ≠ k) : dictInsert d k v = d ++ [(k, v)] := by
  induction d with
  | nil => rfl
  | cons hd tl ih =>
    obtain ⟨k', v'⟩ := hd
    have hk : k' ≠ k := h (k', v') (by simp)
    simp only [dictInsert, if_neg hk, List.cons_append, List.cons.injEq, true_and]
    exact ih (fun kv hkv => h kv (by simp [hkv]))

theorem foldl_dictInsert_append {β : Type} :
    ∀ (entries d : List (ℕ × β)),
      (∀ e ∈ entries, ∀ kv ∈ d, kv.1 ≠ e.1) →
      (entries.map Prod.fst).Nodup →
      entries.foldl (fun acc p => dictInsert acc p.1 p.2) d = d ++ entries := by
  intro entries
  induction entries with
  | nil => intro d _ _; simp
  | cons e rest ih =>
    intro d hfresh hnd
    have h1 : dictInsert d e.1 e.2 = d ++ [e] := by
      rw [dictInsert_fresh d e.1 e.2 (fun kv hkv => hfresh e (by simp) kv hkv)]
    have hnd' : (rest.map Prod.fst).Nodup := (List.nodup_cons.mp (by simpa using hnd)).2
    have hhead : e.1 ∉ rest.map Prod.fst := (List.nodup_cons.mp (by simpa using hnd)).1
    have h2 : ∀ e' ∈ rest, ∀ kv ∈ d ++ [e], kv.1 ≠ e'.1 := by
      intro e' he' kv hkv
      rcases List.mem_append.mp hkv with hmem | hmem
      · exact hfresh e' (by simp [he']) kv hmem
      · simp only [List.mem_singleton] at hmem
        subst hmem
        intro hcontra
        exact hhead (by
          rw [hcontra]
          exact List.mem_map.mpr ⟨e', he', rfl⟩)
    simp only [List.foldl_cons, h1, ih (d ++ [e]) h2 hnd']
    simp

theorem foldl_max_init_le (l : List ℚ) : ∀ a : ℚ, a ≤ l.foldl max a := by
  induction l with
  | nil => intro a; simp
  | cons b t ih =>
    intro a
    simpa using le_trans (le_max_left a b) (ih (max a b))

theorem mem_le_foldl_max : ∀ (ds : List ℚ) (d x : ℚ), x ∈ ds → x ≤ ds.foldl max d := by
  intro ds
  induction ds with
  | nil => intro d x h; simp at h
  | cons b t ih =>
    intro d x h
    rcases List.mem_cons.mp h with rfl | h
    · exact le_trans (le_max_right d x) (foldl_max_init_le t (max d x))
    · exact ih (max d b) x h

theorem le_npMax_of_mem : ∀ {l : List ℚ} {x : ℚ}, x ∈ l → x ≤ npMax l := by
  intro l
  match l with
  | d :: ds =>
    intro x hx
    simp only [npMax]
    rcases List.mem_cons.mp hx with rfl | hx
    · exact foldl_max_init_le ds x
    · exact mem_le_foldl_max ds d x hx
  | [] => intro x hx; simp at hx

theorem l2sq_cons (a b : ℚ) (u v : List ℚ) :
    l2sq (a :: u) (b :: v) = (a - b)^2 + l2sq u v := by
  simp [l2sq]

theorem l2sq_nonneg : ∀ (u v : List ℚ), 0 ≤ l2sq u v := by
  intro u
  induction u with
  | nil => intro v; simp [l2sq]
  | cons a u ih =>
    intro v
    cases v with
    | nil => simp [l2sq]
    | cons b v =>
      rw [l2sq_cons]
      exact add_nonneg (sq_nonneg _) (ih v)

theorem fltMax_nonneg : (0 : ℚ) ≤ fltMax := by norm_num [fltMax]

theorem simEps_pos : (0 : ℚ) < simEps := by norm_num [simEps]

theorem faissFlatSearch_length (vecs : List (List ℚ)) (q : List ℚ) (k : ℕ) :
    (faissFlatSearch vecs q k).length = k := by
  simp only [faissFlatSearch, List.length_append, List.length_replicate, List.length_take]
  omega

theorem faissFlatSearch_mem_fst_nonneg (vecs : List (List ℚ)) (q : List ℚ) (k : ℕ) :
    ∀ p ∈ faissFlatSearch vecs q k, 0 ≤ p.1 := by
  intro p hp
  simp only [faissFlatSearch] at hp
  rcases List.mem_append.mp hp with h | h
  · have h2 := List.mem_of_mem_take h
    rw [List.mem_insertionSort] at h2
    obtain ⟨pr, _, rfl⟩ := List.mem_map.mp h2
    exact l2sq_nonneg _ _
  · rw [List.eq_of_mem_replicate h]
    exact fltMax_nonneg

theorem maxDist_nonneg (vecs : List (List ℚ)) (q : List ℚ) (kk : ℕ) :
    0 ≤ maxDist vecs q kk := by
  simp only [maxDist]
  split
  · next hlen =>
    rcases hrow : faissFlatSearch vecs q kk with _ | ⟨p, rest⟩
    · rw [hrow] at hlen; simp at hlen
    · have h0 : 0 ≤ p.1 :=
        faissFlatSearch_mem_fst_nonneg vecs q kk p (by rw [hrow]; simp)
      exact le_trans h0 (le_npMax_of_mem (List.mem_map.mpr ⟨p, by simp, rfl⟩))
  · norm_num

theorem fst_le_maxDist (vecs : List (List ℚ)) (q : List ℚ) (kk : ℕ) :
    ∀ p ∈ faissFlatSearch vecs q kk, p.1 ≤ maxDist vecs q kk := by
  intro p hp
  simp only [maxDist]
  rw [if_pos (List.length_pos.mpr (List.ne_nil_of_mem hp))]
  exact le_npMax_of_mem (List.mem_map.mpr ⟨p, hp, rfl⟩)

theorem maxDist_add_simEps_pos (vecs : List (List ℚ)) (q : List ℚ) (kk : ℕ) :
    0 < maxDist vecs q kk + simEps :=
  add_pos_of_nonneg_of_pos (maxDist_nonneg vecs q kk) simEps_pos

theorem searchHits_shape (vecs : List (List ℚ)) (q : List ℚ) (kk : ℕ) (thr : ℚ)
    (md : List (ℕ × Meta)) :
    ∃ tp : List (ℚ × ℤ),
      List.Pairwise distPairLe tp ∧
      tp.length ≤ kk ∧
      (∀ p ∈ tp, p ∈ faissFlatSearch vecs q kk) ∧
      searchHits vecs q kk thr md =
        ((tp.map (fun p => (p.2, 1 - p.1 / (maxDist vecs q kk + simEps)))).filter
          (fun p => if p.1 = -1 then false else if p.2 < thr then false else true)).map
          (hydrateResult md) := by
  refine ⟨(List.insertionSort distPairLe
      (vecs.enum.map (fun p => (l2sq q p.2, (p.1 : ℤ))))).take kk, ?_, ?_, ?_, ?_⟩
  · exact List.Pairwise.sublist (List.take_sublist _ _)
      (List.sorted_insertionSort distPairLe _)
  · simp only [List.length_take]
    omega
  · intro p hp
    simp only [faissFlatSearch]
    exact List.mem_append_left _ hp
  · have hpad : ((List.replicate
        (kk - ((List.insertionSort distPairLe
          (vecs.enum.map (fun p => (l2sq q p.2, (p.1 : ℤ))))).take kk).length)
        (fltMax, (-1 : ℤ))).map
          (fun p => (p.2, 1 - p.1 / (maxDist vecs q kk + simEps)))).filter
          (fun p => if p.1 = -1 then false else if p.2 < thr then false else true) = [] := by
      rw [List.map_replicate]
      exact List.filter_eq_nil_iff.mpr (fun a ha => by
        rw [List.eq_of_mem_replicate ha]; simp)
    simp only [searchHits, maxDist, faissFlatSearch, List.map_append, List.filter_append]
    simp only [maxDist, faissFlatSearch, List.map_append, List.filter_append] at hpad
    rw [hpad]
    simp

/-! ### Claim theorems -/

/-- C6: for every search made when no index has been created or loaded, or
when the index holds zero vectors, search fails with the error class the
source raises (VectorSearchError, satisfying the claim's
NotReadyError/VectorSearchError disjunction) rather than returning an
empty result list. -/
theorem search_empty_index_errors (m : VectorStoreManager) (q : List ℚ)
    (k : Option ℕ) (t : Option ℚ)
    (h : m.index = none ∨ m.index = some []) :
    m.search q k t = .error (.vectorSearchError "Index is empty or not loaded") ∧
      m.search q k t ≠ .ok [] := by
  have hmain : m.search q k t = .error (.vectorSearchError "Index is empty or not loaded") := by
    rcases h with h | h <;> simp [VectorStoreManager.search, h]
  exact ⟨hmain, by simp [hmain]⟩

/-- Witness for search_empty_index_errors at a concrete manager whose
index was created but never filled. -/
theorem search_empty_index_errors_witness :
    emptyMgr.search [1, 2] (some 3) (some (1/2)) =
        .error (.vectorSearchError "Index is empty or not loaded") ∧
      emptyMgr.search [1, 2] (some 3) (some (1/2)) ≠ .ok [] :=
  search_empty_index_errors emptyMgr [1, 2] (some 3) (some (1/2)) (Or.inr rfl)

/-- C10: a falsy k (None or 0) and a falsy confidence_threshold (None or
0.0) are silently replaced by the configured defaults on lines 132-133, so
an explicit zero threshold does not disable filtering and an explicit k=0
does not request zero results: the call behaves exactly like the call with
no arguments, and like the call passing the configured defaults. -/
theorem search_falsy_args_use_defaults (m : VectorStoreManager) (q : List ℚ) :
    m.search q (some 0) (some 0) = m.search q none none ∧
    m.search q (some 0) (some 0) =
      m.search q (some m.config.vector.top_k_results)
        (some m.config.vector.confidence_threshold) ∧
    orDefaultNat (some 0) m.config.vector.top_k_results =
      m.config.vector.top_k_results ∧
    orDefaultRat (some 0) m.config.vector.confidence_threshold =
      m.config.vector.confidence_threshold := by
  refine ⟨?_, ?_, by simp [orDefaultNat], by simp [orDefaultRat]⟩ <;>
    cases hidx : m.index <;>
      simp [VectorStoreManager.search, orDefaultNat, orDefaultRat, ite_self]

/-- C5 counterexample: at a concrete call with 1 embedding and 0 metadata
entries the raised error is VectorSearchError (line 98 of
vector_operations.py), not the ValidationError the claim names. -/
theorem add_vectors_mismatch_not_validation_error :
    (emptyMgr.add_vectors [[1, 2]] []).2 =
        some (.vectorSearchError "Number of embeddings must match number of metadata entries") ∧
      ∀ e, (emptyMgr.add_vectors [[1, 2]] []).2 = some e → ¬ e.isValidationError := by
  refine ⟨rfl, ?_⟩
  intro e he
  rw [show (emptyMgr.add_vectors [[1, 2]] []).2 =
      some (RAGError.vectorSearchError
        "Number of embeddings must match number of metadata entries") from rfl] at he
  injection he with h
  subst h
  simp [RAGError.isValidationError]

/-- C5 (amended): when the number of embeddings differs from the number of
metadata entries, add_vectors fails with VectorSearchError — the class the
source actually raises — and does not modify the index or the metadata
mapping. -/
theorem add_vectors_mismatch_vector_search_error (m : VectorStoreManager)
    (embeddings : List (List ℚ)) (metadata : List Meta)
    (hlen : embeddings.length ≠ metadata.length) :
    (m.add_vectors embeddings metadata).1 = m ∧
      ∃ msg, (m.add_vectors embeddings metadata).2 = some (.vectorSearchError msg) := by
  cases hidx : m.index with
  | none =>
    refine ⟨?_, "Index not created. Call create_index() first.", ?_⟩ <;>
      simp [VectorStoreManager.add_vectors, hidx]
  | some vecs =>
    refine ⟨?_, "Number of embeddings must match number of metadata entries", ?_⟩ <;>
      simp [VectorStoreManager.add_vectors, hidx, hlen]

/-- Witness for add_vectors_mismatch_vector_search_error at a concrete
mismatched call. -/
theorem add_vectors_mismatch_vector_search_error_witness :
    ([[(1 : ℚ), 2]].length ≠ ([] : List Meta).length) ∧
      ((wMgr.add_vectors [[1, 2]] []).1 = wMgr ∧
        ∃ msg, (wMgr.add_vectors [[1, 2]] []).2 = some (.vectorSearchError msg)) :=
  ⟨by decide, add_vectors_mismatch_vector_search_error wMgr [[1, 2]] [] (by decide)⟩

/-- C7 counterexample: at a concrete load with the index file missing, the
raised error is VectorSearchError (line 233, re-wrapped by the catch-all
on line 257); it is not a CorruptionError — the source defines no such
class. -/
theorem load_missing_index_not_corruption_error :
    (emptyMgr.load_index none none none).2 =
        some (.vectorSearchError "Failed to load index: Index file not found") ∧
      ∀ e, (emptyMgr.load_index none none none).2 = some e → ¬ e.isCorruptionError := by
  refine ⟨rfl, ?_⟩
  intro e he
  rw [show (emptyMgr.load_index none none none).2 =
      some (RAGError.vectorSearchError
        "Failed to load index: Index file not found") from rfl] at he
  injection he with h
  subst h
  simp [RAGError.isCorruptionError]

/-- C7 (amended): load_index fails with VectorSearchError — the class the
source actually raises, not the spec's CorruptionError — when the index
file is missing, leaving the manager unchanged; when the index file is
present but the metadata file is absent it succeeds with an empty metadata
mapping (a warning is logged). -/
theorem load_index_missing_files_behaviour (m : VectorStoreManager)
    (mdFile : Option (List (List ℕ × Meta))) (mfFile : Option IndexManifest) :
    ((m.load_index none mdFile mfFile).1 = m ∧
      ∃ msg, (m.load_index none mdFile mfFile).2 = some (.vectorSearchError msg)) ∧
    ∀ vecs, (m.load_index (some vecs) none mfFile).2 = none ∧
      (m.load_index (some vecs) none mfFile).1.metadata = [] ∧
      (m.load_index (some vecs) none mfFile).1.index = some vecs := by
  exact ⟨⟨rfl, "Failed to load index: Index file not found", rfl⟩,
    fun vecs => ⟨rfl, rfl, rfl⟩⟩

/-- C4: a successful add_vectors assigns each new vector the next
sequential integer id starting from the index's current total vector count
(start_id = ntotal on line 108), and afterwards the index's vector count
equals the number of metadata entries. The invariant hypothesis is the
well-formedness the store maintains: ids were assigned sequentially, so
every existing key is below the vector count and the counts agree. -/
theorem add_vectors_sequential_ids_and_count (m : VectorStoreManager)
    (vecs embeddings : List (List ℚ)) (metadata : List Meta)
    (hidx : m.index = some vecs)
    (hlen : embeddings.length = metadata.length)
    (hkeys : ∀ kv ∈ m.metadata, kv.1 < vecs.length)
    (hcount : m.metadata.length = vecs.length) :
    (m.add_vectors embeddings metadata).2 = none ∧
    (m.add_vectors embeddings metadata).1.index = some (vecs ++ embeddings) ∧
    (m.add_vectors embeddings metadata).1.metadata =
      m.metadata ++ metadata.enum.map (fun p => (vecs.length + p.1, p.2)) ∧
    ∀ newVecs, (m.add_vectors embeddings metadata).1.index = some newVecs →
      newVecs.length = (m.add_vectors embeddings metadata).1.metadata.length := by
  have hfold : metadata.enum.foldl
      (fun d p => dictInsert d (vecs.length + p.1) p.2) m.metadata
      = m.metadata ++ metadata.enum.map (fun p => (vecs.length + p.1, p.2)) := by
    have h1 : metadata.enum.foldl
        (fun d p => dictInsert d (vecs.length + p.1) p.2) m.metadata
        = (metadata.enum.map (fun p => (vecs.length + p.1, p.2))).foldl
            (fun acc p => dictInsert acc p.1 p.2) m.metadata := by
      rw [List.foldl_map]
    rw [h1]
    apply foldl_dictInsert_append
    · intro e he kv hkv
      obtain ⟨p, _, rfl⟩ := List.mem_map.mp he
      have := hkeys kv hkv
      simp only []
      omega
    · rw [List.map_map]
      have hcomp : (Prod.fst ∘ fun p : ℕ × Meta => (vecs.length + p.1, p.2)) =
          ((fun a => vecs.length + a) ∘ Prod.fst) := rfl
      rw [hcomp, ← List.map_map, List.enum_map_fst]
      exact (List.nodup_range _).map (fun a b h => by omega)
  have hne : ¬ embeddings.length ≠ metadata.length := by omega
  have heq : m.add_vectors embeddings metadata =
      ({ m with index := some (vecs ++ embeddings)
                metadata := m.metadata ++
                  metadata.enum.map (fun p => (vecs.length + p.1, p.2)) }, none) := by
    simp only [VectorStoreManager.add_vectors, hidx, if_neg hne, hfold]
  refine ⟨by rw [heq], by rw [heq], by rw [heq], ?_⟩
  intro newVecs hnew
  rw [heq] at hnew ⊢
  simp only [Option.some.injEq] at hnew
  subst hnew
  simp only [List.length_append, List.length_map, List.enum_length]
  omega

/-- Witness for add_vectors_sequential_ids_and_count at a concrete call
adding two vectors to the three-vector manager. -/
theorem add_vectors_sequential_ids_and_count_witness :
    (wMgr.add_vectors [[5, 5], [6, 6]]
        [[("chunk_id", "c3")], [("chunk_id", "c4")]]).2 = none ∧
    (wMgr.add_vectors [[5, 5], [6, 6]]
        [[("chunk_id", "c3")], [("chunk_id", "c4")]]).1.index =
      some ([[0, 0], [1, 0], [3, 4]] ++ [[5, 5], [6, 6]]) ∧
    (wMgr.add_vectors [[5, 5], [6, 6]]
        [[("chunk_id", "c3")], [("chunk_id", "c4")]]).1.metadata =
      wMgr.metadata ++ ([[("chunk_id", "c3")], [("chunk_id", "c4")]] : List Meta).enum.map
        (fun p => (([[0, 0], [1, 0], [3, 4]] : List (List ℚ)).length + p.1, p.2)) ∧
    ∀ newVecs, (wMgr.add_vectors [[5, 5], [6, 6]]
        [[("chunk_id", "c3")], [("chunk_id", "c4")]]).1.index = some newVecs →
      newVecs.length = (wMgr.add_vectors [[5, 5], [6, 6]]
        [[("chunk_id", "c3")], [("chunk_id", "c4")]]).1.metadata.length :=
  add_vectors_sequential_ids_and_count wMgr [[0, 0], [1, 0], [3, 4]]
    [[5, 5], [6, 6]] [[("chunk_id", "c3")], [("chunk_id", "c4")]]
    rfl (by decide) (by decide) (by decide)

/-- search reads only the manager's config, index and metadata. -/
theorem search_congr (m m' : VectorStoreManager)
    (hc : m.config = m'.config) (hi : m.index = m'.index)
    (hm : m.metadata = m'.metadata) (q : List ℚ) (k : Option ℕ) (t : Option ℚ) :
    m.search q k t = m'.search q k t := by
  unfold VectorStoreManager.search
  rw [hc, hi, hm]

/-- Decoding the stringified keys written by save_index rebuilds the
original integer-keyed mapping, provided the keys are distinct (a dict
invariant). -/
theorem metadata_key_roundtrip (md : List (ℕ × Meta))
    (hnd : (md.map Prod.fst).Nodup) :
    (md.map (fun kv => (encodeKey kv.1, kv.2))).foldl
        (fun d kv => dictInsert d (decodeKey kv.1) kv.2) [] = md := by
  rw [List.foldl_map]
  simp only [decodeKey, encodeKey, Nat.ofDigits_digits]
  have h := foldl_dictInsert_append md []
    (fun e _ kv hkv => absurd hkv (List.not_mem_nil kv)) hnd
  simpa using h

/-- C3: save_index followed by load_index on the written files yields a
manager with the identical index (hence identical vector count), the
identical integer-keyed metadata mapping after string-to-int key coercion,
and identical search results for every fixed query, k and threshold. -/
theorem save_load_roundtrip (m : VectorStoreManager) (vecs : List (List ℚ))
    (now : String)
    (hidx : m.index = some vecs)
    (hnd : (m.metadata.map Prod.fst).Nodup) :
    (∃ r, m.save_index now = .ok r) ∧
    ∀ files m2, m.save_index now = .ok (files, m2) →
      (m2.load_index (some files.indexFile) (some files.metadataFile)
          (some files.manifestFile)).2 = none ∧
      (m2.load_index (some files.indexFile) (some files.metadataFile)
          (some files.manifestFile)).1.index = m.index ∧
      (m2.load_index (some files.indexFile) (some files.metadataFile)
          (some files.manifestFile)).1.metadata = m.metadata ∧
      ∀ q k t, (m2.load_index (some files.indexFile) (some files.metadataFile)
          (some files.manifestFile)).1.search q k t = m.search q k t := by
  obtain ⟨cfg, idx, md, mf⟩ := m
  replace hidx : idx = some vecs := hidx
  replace hnd : (md.map Prod.fst).Nodup := hnd
  subst hidx
  constructor
  · exact ⟨_, rfl⟩
  · intro files m2 hsv
    simp only [VectorStoreManager.save_index, Except.ok.injEq, Prod.mk.injEq] at hsv
    obtain ⟨hf, hm2⟩ := hsv
    subst hf
    subst hm2
    have hmd : ((md.map (fun kv => (encodeKey kv.1, kv.2))).foldl
        (fun d kv => dictInsert d (decodeKey kv.1) kv.2) []) = md :=
      metadata_key_roundtrip md hnd
    refine ⟨rfl, rfl, hmd, ?_⟩
    intro q k t
    apply search_congr
    · rfl
    · rfl
    · exact hmd

/-- Witness for save_load_roundtrip at a concrete three-vector manager. -/
theorem save_load_roundtrip_witness :
    (∃ r, wMgr.save_index "2024-01-01T00:00:00" = .ok r) ∧
    ∀ files m2, wMgr.save_index "2024-01-01T00:00:00" = .ok (files, m2) →
      (m2.load_index (some files.indexFile) (some files.metadataFile)
          (some files.manifestFile)).2 = none ∧
      (m2.load_index (some files.indexFile) (some files.metadataFile)
          (some files.manifestFile)).1.index = wMgr.index ∧
      (m2.load_index (some files.indexFile) (some files.metadataFile)
          (some files.manifestFile)).1.metadata = wMgr.metadata ∧
      ∀ q k t, (m2.load_index (some files.indexFile) (some files.metadataFile)
          (some files.manifestFile)).1.search q k t = wMgr.search q k t :=
  save_load_roundtrip wMgr [[0, 0], [1, 0], [3, 4]] "2024-01-01T00:00:00"
    rfl (by decide)

/-- The similarity filter of lines 151-156 keeps only scores at or above
the resolved threshold. -/
theorem keep_true_imp_thr_le (thr : ℚ) :
    ∀ p : ℤ × ℚ,
      (if p.1 = -1 then false else if p.2 < thr then false else true) = true →
      thr ≤ p.2 := by
  intro p h
  by_cases h1 : p.1 = -1
  · simp [h1] at h
  · rw [if_neg h1] at h
    by_cases h2 : p.2 < thr
    · simp [h2] at h
    · exact le_of_not_lt h2

/-- C1: on a non-empty index, a search passing an explicit k ≥ 1 and an
explicit confidence_threshold t returns at most k results, every returned
result has similarity_score ≥ t, and the result list is sorted in
descending order of similarity_score. (t = 0.0 is falsy and falls back to
the configured default threshold, so the default is required to be
nonnegative, as the baseline 0.7 is.) -/
theorem search_at_most_k_filtered_sorted (m : VectorStoreManager)
    (vecs : List (List ℚ)) (q : List ℚ) (k : ℕ) (t : ℚ)
    (rs : List VectorSearchResult)
    (hidx : m.index = some vecs) (hne : vecs ≠ []) (hk : 1 ≤ k)
    (hdflt : 0 ≤ m.config.vector.confidence_threshold)
    (hok : m.search q (some k) (some t) = .ok rs) :
    rs.length ≤ k ∧ (∀ r ∈ rs, t ≤ r.similarity_score) ∧
      List.Sorted (fun a b => b ≤ a)
        (rs.map VectorSearchResult.similarity_score) := by
  have hkk : orDefaultNat (some k) m.config.vector.top_k_results = k := by
    have hk0 : k ≠ 0 := by omega
    simp [orDefaultNat, hk0]
  have hlen0 : ¬ vecs.length = 0 := by
    simpa [List.length_eq_zero] using hne
  simp only [VectorStoreManager.search, hidx, if_neg hlen0, hkk,
    Except.ok.injEq] at hok
  subst hok
  set thr := orDefaultRat (some t) m.config.vector.confidence_threshold with hthrdef
  have hthr : t ≤ thr := by
    rw [hthrdef]
    by_cases h : t = 0
    · subst h
      simpa [orDefaultRat] using hdflt
    · simp [orDefaultRat, h]
  obtain ⟨tp, hsort, htplen, hmem, hEq⟩ :=
    searchHits_shape vecs q k thr m.metadata
  rw [hEq]
  have hpos := maxDist_add_simEps_pos vecs q k
  refine ⟨?_, ?_, ?_⟩
  · rw [List.length_map]
    calc (((tp.map fun p => (p.2, 1 - p.1 / (maxDist vecs q k + simEps))).filter
          (fun p => if p.1 = -1 then false else if p.2 < thr then false else true)).length)
        ≤ (tp.map fun p => (p.2, 1 - p.1 / (maxDist vecs q k + simEps))).length :=
          List.length_filter_le _ _
      _ = tp.length := List.length_map _ _
      _ ≤ k := htplen
  · intro r hr
    obtain ⟨p', hp', rfl⟩ := List.mem_map.mp hr
    have hkept := (List.mem_filter.mp hp').2
    have h2 : thr ≤ p'.2 := keep_true_imp_thr_le thr p' hkept
    exact le_trans hthr h2
  · rw [List.map_map]
    have hcomp : (VectorSearchResult.similarity_score ∘ hydrateResult m.metadata) =
        Prod.snd := rfl
    rw [hcomp]
    refine List.pairwise_map.mpr ?_
    refine List.Pairwise.sublist (List.filter_sublist _) ?_
    refine List.pairwise_map.mpr ?_
    refine hsort.imp ?_
    intro a b hab
    have hd : a.1 / (maxDist vecs q k + simEps) ≤ b.1 / (maxDist vecs q k + simEps) :=
      div_le_div_of_nonneg_right hab (le_of_lt hpos)
    simp only []
    linarith

/-- C2: on a non-empty index with an explicit k ≥ 1, every returned
result's similarity_score equals 1 - d / (max_distance + ε) for a distance
d of the query's returned batch, where max_distance is np.max over that
batch (maxDist, with the source's empty-row guard) and ε = 1e-8 (simEps);
and every returned score lies in [0, 1]. -/
theorem search_similarity_formula_and_bounds (m : VectorStoreManager)
    (vecs : List (List ℚ)) (q : List ℚ) (k : ℕ) (t : Option ℚ)
    (rs : List VectorSearchResult)
    (hidx : m.index = some vecs) (hne : vecs ≠ []) (hk : 1 ≤ k)
    (hok : m.search q (some k) t = .ok rs) :
    ∀ r ∈ rs, ∃ d ∈ (faissFlatSearch vecs q k).map Prod.fst,
      r.similarity_score = 1 - d / (maxDist vecs q k + simEps) ∧
      0 ≤ r.similarity_score ∧ r.similarity_score ≤ 1 := by
  have hkk : orDefaultNat (some k) m.config.vector.top_k_results = k := by
    have hk0 : k ≠ 0 := by omega
    simp [orDefaultNat, hk0]
  have hlen0 : ¬ vecs.length = 0 := by
    simpa [List.length_eq_zero] using hne
  simp only [VectorStoreManager.search, hidx, if_neg hlen0, hkk,
    Except.ok.injEq] at hok
  subst hok
  set thr := orDefaultRat t m.config.vector.confidence_threshold
  obtain ⟨tp, _, _, hmem, hEq⟩ := searchHits_shape vecs q k thr m.metadata
  rw [hEq]
  have hpos := maxDist_add_simEps_pos vecs q k
  intro r hr
  obtain ⟨p', hp', rfl⟩ := List.mem_map.mp hr
  have hp'2 := List.mem_of_mem_filter hp'
  obtain ⟨p, hp, rfl⟩ := List.mem_map.mp hp'2
  have hprow : p ∈ faissFlatSearch vecs q k := hmem p hp
  have hd0 : 0 ≤ p.1 := faissFlatSearch_mem_fst_nonneg vecs q k p hprow
  have hdM : p.1 ≤ maxDist vecs q k := fst_le_maxDist vecs q k p hprow
  refine ⟨p.1, List.mem_map.mpr ⟨p, hprow, rfl⟩, rfl, ?_, ?_⟩
  · have hdiv1 : p.1 / (maxDist vecs q k + simEps) ≤ 1 := by
      rw [div_le_one hpos]
      have := simEps_pos
      linarith
    show (0 : ℚ) ≤ 1 - p.1 / (maxDist vecs q k + simEps)
    linarith
  · have hdiv0 : 0 ≤ p.1 / (maxDist vecs q k + simEps) :=
      div_nonneg hd0 (le_of_lt hpos)
    show (1 : ℚ) - p.1 / (maxDist vecs q k + simEps) ≤ 1
    linarith

/-- Witness for search_at_most_k_filtered_sorted: a concrete k=2,
threshold 0.01 search over the three-vector manager. -/
theorem search_at_most_k_filtered_sorted_witness :
    ∃ rs, wMgr.search [0, 0] (some 2) (some (1/100)) = .ok rs ∧
      rs.length ≤ 2 ∧ (∀ r ∈ rs, (1/100 : ℚ) ≤ r.similarity_score) ∧
      List.Sorted (fun a b => b ≤ a)
        (rs.map VectorSearchResult.similarity_score) := by
  have hok : wMgr.search [0, 0] (some 2) (some (1/100)) =
      .ok [{ chunk_id := "c0", content := "zero", similarity_score := 1,
             metadata := [("chunk_id", "c0"), ("content", "zero")],
             document_id := none, source_file := none, page_number := none,
             article_number := none }] := by with_unfolding_all rfl
  have h := search_at_most_k_filtered_sorted wMgr [[0, 0], [1, 0], [3, 4]]
    [0, 0] 2 (1/100) _ rfl (by decide) (by decide)
    (by with_unfolding_all decide) hok
  exact ⟨_, hok, h⟩

/-- Witness for search_similarity_formula_and_bounds at the same concrete
search. -/
theorem search_similarity_formula_and_bounds_witness :
    ∃ rs, wMgr.search [0, 0] (some 2) (some (1/100)) = .ok rs ∧
      ∀ r ∈ rs, ∃ d ∈ (faissFlatSearch [[0, 0], [1, 0], [3, 4]] [0, 0] 2).map Prod.fst,
        r.similarity_score = 1 - d / (maxDist [[0, 0], [1, 0], [3, 4]] [0, 0] 2 + simEps) ∧
        0 ≤ r.similarity_score ∧ r.similarity_score ≤ 1 := by
  have hok : wMgr.search [0, 0] (some 2) (some (1/100)) =
      .ok [{ chunk_id := "c0", content := "zero", similarity_score := 1,
             metadata := [("chunk_id", "c0"), ("content", "zero")],
             document_id := none, source_file := none, page_number := none,
             article_number := none }] := by with_unfolding_all rfl
  have h := search_similarity_formula_and_bounds wMgr [[0, 0], [1, 0], [3, 4]]
    [0, 0] 2 (some (1/100)) _ rfl (by decide) (by decide) hok
  exact ⟨_, hok, h⟩

theorem pyStrip_length_le (s : List Char) : (pyStrip s).length ≤ s.length := by
  unfold pyStrip
  rw [List.length_reverse]
  calc ((s.dropWhile Char.isWhitespace).reverse.dropWhile Char.isWhitespace).length
      ≤ (s.dropWhile Char.isWhitespace).reverse.length :=
        (List.dropWhile_sublist _).length_le
    _ = (s.dropWhile Char.isWhitespace).length := List.length_reverse _
    _ ≤ s.length := (List.dropWhile_sublist _).length_le

theorem length_le_maxLen :
    ∀ (l : List (List Char)) (s : List Char), s ∈ l → s.length ≤ maxLen l := by
  intro l
  induction l with
  | nil => intro s h; simp at h
  | cons a t ih =>
    intro s h
    rcases List.mem_cons.mp h with rfl | h
    · exact le_max_left _ _ |>.trans (le_of_eq rfl) |>.trans_eq rfl
    · exact le_trans (ih s h) (le_max_right _ _)

/-- One chunkStep preserves the loop invariants for the index claim:
indices enumerate the chunks list and the running index equals its
length. -/
theorem chunkStep_indices (cs ov : ℕ) (st : ChunkState) (s : List Char)
    (h1 : st.chunks.map TextChunk.chunk_index = List.range st.chunks.length)
    (h2 : st.chunk_index = st.chunks.length) :
    ((chunkStep cs ov st s).chunks.map TextChunk.chunk_index =
        List.range (chunkStep cs ov st s).chunks.length) ∧
      (chunkStep cs ov st s).chunk_index = (chunkStep cs ov st s).chunks.length := by
  have hseal : (st.chunks ++ [sealChunk st]).map TextChunk.chunk_index =
      List.range (st.chunks ++ [sealChunk st]).length := by
    rw [List.map_append, h1, List.length_append]
    simp [sealChunk, h2, List.range_succ]
  unfold chunkStep
  split
  · split
    · exact ⟨hseal, by simp [h2]⟩
    · exact ⟨hseal, by simp [h2]⟩
  · exact ⟨h1, h2⟩

theorem foldl_chunkStep_indices (cs ov : ℕ) :
    ∀ (sentences : List (List Char)) (st : ChunkState),
      st.chunks.map TextChunk.chunk_index = List.range st.chunks.length →
      st.chunk_index = st.chunks.length →
      ((sentences.foldl (chunkStep cs ov) st).chunks.map TextChunk.chunk_index =
          List.range (sentences.foldl (chunkStep cs ov) st).chunks.length) ∧
        (sentences.foldl (chunkStep cs ov) st).chunk_index =
          (sentences.foldl (chunkStep cs ov) st).chunks.length := by
  intro sentences
  induction sentences with
  | nil => intro st h1 h2; exact ⟨h1, h2⟩
  | cons s rest ih =>
    intro st h1 h2
    have h := chunkStep_indices cs ov st s h1 h2
    exact ih _ h.1 h.2

/-- One chunkStep preserves the loop invariants for the size claim: the
tracked size equals the buffer length, the buffer stays within
max (chunk_size+1) (overlap+1+L), and so does every sealed chunk, where L
bounds every sentence length. -/
theorem chunkStep_size (cs ov L : ℕ) (st : ChunkState) (s : List Char)
    (hs : s.length ≤ L)
    (hsz : st.current_size = st.current_chunk.length)
    (hbuf : st.current_chunk.length ≤ max (cs + 1) (ov + 1 + L))
    (hall : ∀ c ∈ st.chunks, c.content.length ≤ max (cs + 1) (ov + 1 + L)) :
    (chunkStep cs ov st s).current_size =
        (chunkStep cs ov st s).current_chunk.length ∧
      (chunkStep cs ov st s).current_chunk.length ≤ max (cs + 1) (ov + 1 + L) ∧
      ∀ c ∈ (chunkStep cs ov st s).chunks,
        c.content.length ≤ max (cs + 1) (ov + 1 + L) := by
  have hallseal : ∀ c ∈ st.chunks ++ [sealChunk st],
      c.content.length ≤ max (cs + 1) (ov + 1 + L) := by
    intro c hc
    rcases List.mem_append.mp hc with hc | hc
    · exact hall c hc
    · simp only [List.mem_singleton] at hc
      subst hc
      calc (sealChunk st).content.length
          ≤ st.current_chunk.length := pyStrip_length_le _
        _ ≤ max (cs + 1) (ov + 1 + L) := hbuf
  unfold chunkStep
  split
  · next hcond =>
    split
    · next hov =>
      refine ⟨rfl, ?_, hallseal⟩
      have hovt : (if ov < st.current_chunk.length
          then st.current_chunk.drop (st.current_chunk.length - ov)
          else st.current_chunk).length ≤ ov := by
        split
        · next h => simp [List.length_drop]; omega
        · next h => omega
      simp only [List.length_append, List.length_cons, List.length_nil]
      have : s.length ≤ L := hs
      refine le_trans ?_ (le_max_right _ _)
      omega
    · refine ⟨rfl, ?_, hallseal⟩
      exact le_trans hs (le_trans (by omega) (le_max_right _ _))
  · next hcond =>
    by_cases hbufne : st.current_chunk ≠ []
    · have hle : st.current_size + s.length ≤ cs := by
        rcases not_and_or.mp hcond with h | h
        · omega
        · exact absurd hbufne h
      have hbufeq : (st.current_chunk ++ [' '] ++ s) ≠ s := by
        intro heq
        have := congrArg List.length heq
        simp only [List.length_append, List.length_cons, List.length_nil] at this
        have : st.current_chunk.length = 0 := by omega
        exact hbufne (List.length_eq_zero.mp this)
      refine ⟨?_, ?_, hall⟩
      · simp only [if_pos hbufne, if_pos hbufeq, List.length_append,
          List.length_cons, List.length_nil]
        omega
      · simp only [if_pos hbufne, List.length_append, List.length_cons,
          List.length_nil]
        refine le_trans ?_ (le_max_left _ _)
        omega
    · push_neg at hbufne
      refine ⟨?_, ?_, hall⟩
      · simp only [if_neg (by simp [hbufne] : ¬ st.current_chunk ≠ [])]
        rw [hsz, hbufne]
        simp
      · simp only [if_neg (by simp [hbufne] : ¬ st.current_chunk ≠ [])]
        exact le_trans hs (le_trans (by omega) (le_max_right _ _))

theorem foldl_chunkStep_size (cs ov L : ℕ) :
    ∀ (sentences : List (List Char)) (st : ChunkState),
      (∀ s ∈ sentences, s.length ≤ L) →
      st.current_size = st.current_chunk.length →
      st.current_chunk.length ≤ max (cs + 1) (ov + 1 + L) →
      (∀ c ∈ st.chunks, c.content.length ≤ max (cs + 1) (ov + 1 + L)) →
      (sentences.foldl (chunkStep cs ov) st).current_size =
          (sentences.foldl (chunkStep cs ov) st).current_chunk.length ∧
        (sentences.foldl (chunkStep cs ov) st).current_chunk.length ≤
          max (cs + 1) (ov + 1 + L) ∧
        ∀ c ∈ (sentences.foldl (chunkStep cs ov) st).chunks,
          c.content.length ≤ max (cs + 1) (ov + 1 + L) := by
  intro sentences
  induction sentences with
  | nil => intro st _ h1 h2 h3; exact ⟨h1, h2, h3⟩
  | cons s rest ih =>
    intro st hall h1 h2 h3
    have h := chunkStep_size cs ov L st s (hall s (by simp)) h1 h2 h3
    exact ih _ (fun s' hs' => hall s' (by simp [hs'])) h.1 h.2.1 h.2.2

/-- C8: chunk_text is a total function of its string input (any text,
chunk_size and overlap, including unicode text, produce a well-defined
chunk list — the embedding is a total Lean function and no branch raises);
empty input returns the empty sequence before any processing; chunk
indices are assigned sequentially from 0 (the index list enumerates
0, 1, ...); and when the loop ends with a buffer whose strip is nonempty,
that buffer is flushed as the final chunk. -/
theorem chunk_text_total_empty_flush_indices (cfg : TextConfig)
    (clean : List Char → List Char) (text : List Char) (cs ov : Option ℕ) :
    chunk_text cfg clean [] cs ov = [] ∧
    ((chunk_text cfg clean text cs ov).map TextChunk.chunk_index =
      List.range (chunk_text cfg clean text cs ov).length) ∧
    (text ≠ [] →
      pyStrip (chunkLoop (orDefaultNat cs cfg.chunk_size)
          (orDefaultNat ov cfg.chunk_overlap)
          (split_sentences (clean text))).current_chunk ≠ [] →
      chunk_text cfg clean text cs ov =
        (chunkLoop (orDefaultNat cs cfg.chunk_size)
            (orDefaultNat ov cfg.chunk_overlap)
            (split_sentences (clean text))).chunks ++
          [finalChunk (chunkLoop (orDefaultNat cs cfg.chunk_size)
            (orDefaultNat ov cfg.chunk_overlap)
            (split_sentences (clean text)))] ∧
      (finalChunk (chunkLoop (orDefaultNat cs cfg.chunk_size)
          (orDefaultNat ov cfg.chunk_overlap)
          (split_sentences (clean text)))).content =
        pyStrip (chunkLoop (orDefaultNat cs cfg.chunk_size)
          (orDefaultNat ov cfg.chunk_overlap)
          (split_sentences (clean text))).current_chunk) := by
  refine ⟨rfl, ?_, ?_⟩
  · by_cases htext : text = []
    · subst htext
      simp [chunk_text, chunkWith]
    · have hinv := foldl_chunkStep_indices (orDefaultNat cs cfg.chunk_size)
        (orDefaultNat ov cfg.chunk_overlap) (split_sentences (clean text))
        ⟨[], [], 0, 0⟩ (by simp) (by simp)
      unfold chunk_text chunkWith chunkFinish chunkLoop
      rw [if_neg htext]
      split
      · rw [List.map_append, hinv.1, List.length_append]
        simp [finalChunk, hinv.2, List.range_succ]
      · exact hinv.1
  · intro htext hflush
    unfold chunk_text chunkWith chunkFinish
    rw [if_neg htext, if_pos hflush]
    exact ⟨rfl, rfl⟩

/-- Witness for chunk_text_total_empty_flush_indices at the concrete input
"ab. cd. x." with chunk_size 4 and overlap 1, whose loop ends with the
nonempty buffer "d x". -/
theorem chunk_text_total_empty_flush_indices_witness :
    chunk_text defaultAppConfig.text id [] (some 4) (some 1) = [] ∧
    ((chunk_text defaultAppConfig.text id ("ab. cd. x.".toList)
        (some 4) (some 1)).map TextChunk.chunk_index =
      List.range (chunk_text defaultAppConfig.text id ("ab. cd. x.".toList)
        (some 4) (some 1)).length) ∧
    chunk_text defaultAppConfig.text id ("ab. cd. x.".toList) (some 4) (some 1) =
      (chunkLoop (orDefaultNat (some 4) defaultAppConfig.text.chunk_size)
          (orDefaultNat (some 1) defaultAppConfig.text.chunk_overlap)
          (split_sentences (id ("ab. cd. x.".toList)))).chunks ++
        [finalChunk (chunkLoop (orDefaultNat (some 4) defaultAppConfig.text.chunk_size)
          (orDefaultNat (some 1) defaultAppConfig.text.chunk_overlap)
          (split_sentences (id ("ab. cd. x.".toList))))] ∧
    (finalChunk (chunkLoop (orDefaultNat (some 4) defaultAppConfig.text.chunk_size)
        (orDefaultNat (some 1) defaultAppConfig.text.chunk_overlap)
        (split_sentences (id ("ab. cd. x.".toList))))).content =
      pyStrip (chunkLoop (orDefaultNat (some 4) defaultAppConfig.text.chunk_size)
        (orDefaultNat (some 1) defaultAppConfig.text.chunk_overlap)
        (split_sentences (id ("ab. cd. x.".toList)))).current_chunk := by
  have h := chunk_text_total_empty_flush_indices defaultAppConfig.text id
    ("ab. cd. x.".toList) (some 4) (some 1)
  have hfl := h.2.2 (by decide) (by decide)
  exact ⟨h.1, h.2.1, hfl.1, hfl.2⟩

/-- C9 counterexample: with chunk_size 10 and overlap 8, chunk_text on
"aaaaaaaaa. bbbbbbbbb. c." produces a chunk of 18 characters — more than
chunk_size — that is not one of the input's sentences (it is an overlap
seed joined to a sentence), refuting the claim that a chunk can exceed
chunk_size only by being a single oversized sentence. -/
theorem chunk_exceeds_chunk_size :
    ∃ c ∈ chunk_text defaultAppConfig.text id
        ("aaaaaaaaa. bbbbbbbbb. c.".toList) (some 10) (some 8),
      10 < c.content.length ∧
        c.content ∉ split_sentences (id ("aaaaaaaaa. bbbbbbbbb. c.".toList)) := by
  decide

/-- C9 (amended): chunks can exceed chunk_size by the joining space the
size accounting ignores and by the overlap seed prepended to the
triggering sentence, but no further: every chunk's content length is at
most max (chunk_size + 1) (overlap + 1 + L), where L is the length of the
longest sentence of the cleaned input. -/
theorem chunk_text_size_bound (cfg : TextConfig) (clean : List Char → List Char)
    (text : List Char) (cs ov : Option ℕ) :
    ∀ c ∈ chunk_text cfg clean text cs ov,
      c.content.length ≤
        max (orDefaultNat cs cfg.chunk_size + 1)
          (orDefaultNat ov cfg.chunk_overlap + 1 +
            maxLen (split_sentences (clean text))) := by
  intro c hc
  unfold chunk_text chunkWith chunkFinish chunkLoop at hc
  by_cases htext : text = []
  · rw [if_pos htext] at hc
    simp at hc
  · rw [if_neg htext] at hc
    have hinv := foldl_chunkStep_size (orDefaultNat cs cfg.chunk_size)
      (orDefaultNat ov cfg.chunk_overlap)
      (maxLen (split_sentences (clean text))) (split_sentences (clean text))
      ⟨[], [], 0, 0⟩ (fun s hs => length_le_maxLen _ s hs)
      (by simp) (by simp) (by simp)
    split at hc
    · rcases List.mem_append.mp hc with hc | hc
      · exact hinv.2.2 c hc
      · simp only [List.mem_singleton] at hc
        subst hc
        calc (finalChunk _).content.length
            ≤ _ := pyStrip_length_le _
          _ ≤ _ := hinv.2.1
    · exact hinv.2.2 c hc

/-- Witness for chunk_text_size_bound at the concrete input "ab. cd. x."
with chunk_size 4 and overlap 1: the first produced chunk, "ab cd", has
length 5 = chunk_size + 1, within the bound. -/
theorem chunk_text_size_bound_witness :
    ({ chunk_index := 0, content := "ab cd".toList, size := 5,
       start_pos := 0, end_pos := 5 } : TextChunk) ∈
      chunk_text defaultAppConfig.text id ("ab. cd. x.".toList)
        (some 4) (some 1) ∧
    ({ chunk_index := 0, content := "ab cd".toList, size := 5,
       start_pos := 0, end_pos := 5 } : TextChunk).content.length ≤
      max (orDefaultNat (some 4) defaultAppConfig.text.chunk_size + 1)
        (orDefaultNat (some 1) defaultAppConfig.text.chunk_overlap + 1 +
          maxLen (split_sentences (id ("ab. cd. x.".toList)))) :=
  ⟨by decide, chunk_text_size_bound defaultAppConfig.text id
    ("ab. cd. x.".toList) (some 4) (some 1) _ (by decide)⟩
